import Mathlib

/-!
A shallow embedding of the consensus vote-tracking class
`ripple::DisputedTx` (src/src/ripple/app/ledger/impl/DisputedTx.h):
the per-peer vote tally (`setVote` / `unVote`), the avalanche position
update (`updateVote`) and the JSON snapshot (`getJson`), together with
theorems about them.

Modelling choices:
* Peer identifiers (`NodeID_t`) are opaque comparable/hashable values;
  we model them as `String`, so that the `to_string` used by `getJson`
  is the identity.
* The `hash_map<NodeID_t, bool> mVotes` is modelled as an association
  list with unique keys; `insert` appends when the key is absent,
  `erase` removes the (unique) entry with the key.
* C++ `int` arithmetic is modelled by `Int`; the C++ `/` on
  non-negative operands truncates toward zero, which is `Int.tdiv`.
* The `AV_*_CONSENSUS_*` macros are configuration defined outside this
  header; they are passed as an explicit `AvalancheConfig` record.
-/

/-- The peer-identifier type `NodeID_t`: opaque and comparable; modelled as
`String`, whose string form (the `to_string` applied by `getJson`) is the
identifier itself. -/
abbrev NodeID := String

/-- Modelled from the spec: the avalanche schedule constants
`AV_MID_CONSENSUS_TIME`, `AV_LATE_CONSENSUS_TIME`, `AV_STUCK_CONSENSUS_TIME`
and `AV_INIT/MID/LATE/STUCK_CONSENSUS_PCT` used by `updateVote` are defined
outside this header; the spec describes them as externally supplied
configuration (three time-bracket boundaries and four support
percentages). -/
structure AvalancheConfig where
  midConsensusTime : Int
  lateConsensusTime : Int
  stuckConsensusTime : Int
  initConsensusPct : Int
  midConsensusPct : Int
  lateConsensusPct : Int
  stuckConsensusPct : Int
deriving DecidableEq

/-- The state of a `DisputedTx` object: transaction id, yes/no counters, the
local vote, the (opaque, here `Nat`) transaction payload, and the per-peer
vote map. -/
structure DisputedTxState where
  mTransactionID : Nat
  mYays : Int
  mNays : Int
  mOurVote : Bool
  transaction : Nat
  mVotes : List (NodeID × Bool)
deriving DecidableEq

/-- `mVotes.find(peer)`: the vote stored for `peer`, if any. -/
def findVote : List (NodeID × Bool) → NodeID → Option Bool
  | [], _ => none
  | pv :: rest, peer => if pv.1 = peer then some pv.2 else findVote rest peer

/-- `res.first->second = v`: overwrite the stored vote of `peer` (keys are
unchanged). -/
def storeVote (votes : List (NodeID × Bool)) (peer : NodeID) (v : Bool) :
    List (NodeID × Bool) :=
  votes.map (fun pv => if pv.1 = peer then (pv.1, v) else pv)

/-- `mVotes.erase(it)`: remove the entry found for `peer` (the first, and
under unique keys the only, occurrence). -/
def eraseVote : List (NodeID × Bool) → NodeID → List (NodeID × Bool)
  | [], _ => []
  | pv :: rest, peer => if pv.1 = peer then rest else pv :: eraseVote rest peer

/-- The `DisputedTx` constructor: counters start at zero and the vote map
empty; `mTransactionID` is `tx.getID()`, modelled as the identity on the
opaque payload. -/
def mkDisputedTx (tx : Nat) (ourVote : Bool) : DisputedTxState :=
  { mTransactionID := tx, mYays := 0, mNays := 0, mOurVote := ourVote,
    transaction := tx, mVotes := [] }

/-- `DisputedTx::setVote(peer, votesYes)`: insert a new vote, or flip an
existing one, keeping the counters in step; a repeated identical vote is a
no-op. -/
def setVote (s : DisputedTxState) (peer : NodeID) (votesYes : Bool) :
    DisputedTxState :=
  match findVote s.mVotes peer with
  | none =>
    if votesYes then
      { s with mVotes := s.mVotes ++ [(peer, votesYes)], mYays := s.mYays + 1 }
    else
      { s with mVotes := s.mVotes ++ [(peer, votesYes)], mNays := s.mNays + 1 }
  | some oldVote =>
    if votesYes && !oldVote then
      { s with mVotes := storeVote s.mVotes peer true,
               mNays := s.mNays - 1, mYays := s.mYays + 1 }
    else if !votesYes && oldVote then
      { s with mVotes := storeVote s.mVotes peer false,
               mNays := s.mNays + 1, mYays := s.mYays - 1 }
    else s

/-- `DisputedTx::unVote(peer)`: remove the peer's vote if present,
decrementing the matching counter; otherwise do nothing. -/
def unVote (s : DisputedTxState) (peer : NodeID) : DisputedTxState :=
  match findVote s.mVotes peer with
  | none => s
  | some v =>
    { s with mVotes := eraseVote s.mVotes peer,
             mYays := if v then s.mYays - 1 else s.mYays,
             mNays := if v then s.mNays else s.mNays - 1 }

/-- The `newPosition` computed by `DisputedTx::updateVote` once past the
early-exit guard: when proposing, compare the truncated-division support
weight against the time-bracketed threshold; when not proposing, take the
strict majority of peer votes. -/
def votePosition (cfg : AvalancheConfig) (s : DisputedTxState)
    (percentTime : Int) (proposing : Bool) : Bool :=
  if proposing then
    let weight : Int :=
      Int.tdiv (s.mYays * 100 + (if s.mOurVote then 100 else 0))
        (s.mNays + s.mYays + 1)
    if percentTime < cfg.midConsensusTime then
      decide (weight > cfg.initConsensusPct)
    else if percentTime < cfg.lateConsensusTime then
      decide (weight > cfg.midConsensusPct)
    else if percentTime < cfg.stuckConsensusTime then
      decide (weight > cfg.lateConsensusPct)
    else
      decide (weight > cfg.stuckConsensusPct)
  else
    decide (s.mYays > s.mNays)

/-- `DisputedTx::updateVote(percentTime, proposing)`: returns the pair of
the boolean result (did our position change) and the state after the call. -/
def updateVote (cfg : AvalancheConfig) (s : DisputedTxState)
    (percentTime : Int) (proposing : Bool) : Bool × DisputedTxState :=
  if s.mOurVote = true ∧ s.mNays = 0 then (false, s)
  else if s.mOurVote = false ∧ s.mYays = 0 then (false, s)
  else if votePosition cfg s percentTime proposing = s.mOurVote then (false, s)
  else (true, { s with mOurVote := votePosition cfg s percentTime proposing })

/-- The body of `updateVote` with the two early-exit guard lines removed:
the full weight/majority computation and apply step, used to compare the
guard against the unguarded computation. -/
def updateVoteNoGuard (cfg : AvalancheConfig) (s : DisputedTxState)
    (percentTime : Int) (proposing : Bool) : Bool × DisputedTxState :=
  if votePosition cfg s percentTime proposing = s.mOurVote then (false, s)
  else (true, { s with mOurVote := votePosition cfg s percentTime proposing })

/-- The time-bracketed support threshold selected by the avalanche schedule:
strict less-than comparisons, so a boundary value falls into the later
bracket. -/
def selectThreshold (cfg : AvalancheConfig) (percentTime : Int) : Int :=
  if percentTime < cfg.midConsensusTime then cfg.initConsensusPct
  else if percentTime < cfg.lateConsensusTime then cfg.midConsensusPct
  else if percentTime < cfg.stuckConsensusTime then cfg.lateConsensusPct
  else cfg.stuckConsensusPct

/-- The structured value built by `DisputedTx::getJson`. -/
structure TxJson where
  yays : Int
  nays : Int
  our_vote : Bool
  votes : Option (List (String × Bool))
deriving DecidableEq

/-- `DisputedTx::getJson()`: yes/no counters, our vote, and — only when the
vote map is non-empty — one entry per peer mapping the string form of its
identifier to its vote. A pure read of the state. -/
def getJson (s : DisputedTxState) : TxJson :=
  { yays := s.mYays
    nays := s.mNays
    our_vote := s.mOurVote
    votes :=
      if s.mVotes.isEmpty then none
      else some (s.mVotes.map (fun pv => (pv.1, pv.2))) }

/-- One vote-tally mutation: `setVote` (register) or `unVote` (remove). -/
inductive VoteOp where
  | register (peer : NodeID) (vote : Bool)
  | remove (peer : NodeID)
deriving DecidableEq

/-- Apply one tally mutation to the state. -/
def applyOp (s : DisputedTxState) : VoteOp → DisputedTxState
  | .register p v => setVote s p v
  | .remove p => unVote s p

/-- Apply a sequence of tally mutations, oldest first. -/
def applyOps (s : DisputedTxState) (ops : List VoteOp) : DisputedTxState :=
  ops.foldl applyOp s

/-- Number of yes entries in the vote map. -/
def yesEntries (votes : List (NodeID × Bool)) : Nat :=
  (votes.filter (fun pv => pv.2)).length

/-- Number of no entries in the vote map. -/
def noEntries (votes : List (NodeID × Bool)) : Nat :=
  (votes.filter (fun pv => !pv.2)).length

/-- The vote map has at most one entry per peer. -/
abbrev keysNodup (votes : List (NodeID × Bool)) : Prop :=
  (votes.map Prod.fst).Nodup

/-- The internal tally invariant: each counter equals the number of matching
entries, and keys are unique. -/
def TallyInv (s : DisputedTxState) : Prop :=
  s.mYays = (yesEntries s.mVotes : Int) ∧
  s.mNays = (noEntries s.mVotes : Int) ∧
  keysNodup s.mVotes

/-- Modelled from the spec: the concrete threshold schedule of Scenario A —
`init = 50` with bracket boundaries `mid@50`, `late@85`, `stuck@200`; the
remaining percentages are not fixed by the scenario and are taken
non-decreasing (65, 70, 95) as the schedule requires. -/
def scenarioConfig : AvalancheConfig :=
  { midConsensusTime := 50, lateConsensusTime := 85, stuckConsensusTime := 200,
    initConsensusPct := 50, midConsensusPct := 65, lateConsensusPct := 70,
    stuckConsensusPct := 95 }

/-- Scenario A state: three yes votes, one no vote, our position no. -/
def scenarioA : DisputedTxState :=
  { mTransactionID := 1, mYays := 3, mNays := 1, mOurVote := false,
    transaction := 1,
    mVotes := [("p1", true), ("p2", true), ("p3", true), ("q1", false)] }

/-- Scenario C state: two yes votes, two no votes, our position yes. -/
def scenarioC : DisputedTxState :=
  { mTransactionID := 2, mYays := 2, mNays := 2, mOurVote := true,
    transaction := 2,
    mVotes := [("p1", true), ("p2", true), ("q1", false), ("q2", false)] }

/-- A small concrete tally used for witnesses: two yes votes, our vote yes. -/
def exYes : DisputedTxState :=
  { mTransactionID := 5, mYays := 2, mNays := 0, mOurVote := true,
    transaction := 5, mVotes := [("p1", true), ("p2", true)] }

/-- A lookup that misses is exactly a key absent from the map. -/
theorem findVote_eq_none_iff (votes : List (NodeID × Bool)) (p : NodeID) :
    findVote votes p = none ↔ p ∉ votes.map Prod.fst := by
  induction votes with
  | nil => simp [findVote]
  | cons pv rest ih =>
    rw [List.map_cons]
    by_cases h : pv.1 = p
    · simp [findVote, h]
    · have h2 : ¬p = pv.1 := fun hq => h hq.symm
      simp [findVote, h, h2, ih]

/-- Yes entries and no entries together exhaust the vote map. -/
theorem yesEntries_add_noEntries (votes : List (NodeID × Bool)) :
    yesEntries votes + noEntries votes = votes.length := by
  induction votes with
  | nil => rfl
  | cons pv rest ih =>
    cases hv : pv.2 <;>
      simp only [yesEntries, noEntries, List.filter_cons, hv, List.length_cons,
        Bool.not_true, Bool.not_false, cond_true, cond_false] at * <;>
      simp_all <;> omega

/-- Appending a fresh vote adds one matching entry. -/
theorem yesEntries_append (votes : List (NodeID × Bool)) (p : NodeID) (v : Bool) :
    yesEntries (votes ++ [(p, v)]) = yesEntries votes + (if v then 1 else 0) := by
  cases v <;> simp [yesEntries, List.filter_append, List.filter]

/-- Appending a fresh vote adds one matching entry. -/
theorem noEntries_append (votes : List (NodeID × Bool)) (p : NodeID) (v : Bool) :
    noEntries (votes ++ [(p, v)]) = noEntries votes + (if v then 0 else 1) := by
  cases v <;> simp [noEntries, List.filter_append, List.filter]

/-- Overwriting a stored vote does not change the key list. -/
theorem keys_storeVote (votes : List (NodeID × Bool)) (p : NodeID) (v : Bool) :
    (storeVote votes p v).map Prod.fst = votes.map Prod.fst := by
  induction votes with
  | nil => rfl
  | cons pv rest ih =>
    simp only [storeVote, List.map_cons] at *
    by_cases h : pv.1 = p <;> simp [h, ih]

/-- Overwriting the vote of an absent peer is a no-op. -/
theorem storeVote_of_not_mem (votes : List (NodeID × Bool)) (p : NodeID)
    (v : Bool) (h : p ∉ votes.map Prod.fst) : storeVote votes p v = votes := by
  induction votes with
  | nil => rfl
  | cons pv rest ih =>
    simp only [List.map_cons, List.mem_cons] at h
    push_neg at h
    simp only [storeVote, List.map_cons] at *
    rw [if_neg (fun hh => h.1 hh.symm), ih h.2]

/-- Overwriting preserves the size of the vote map. -/
theorem length_storeVote (votes : List (NodeID × Bool)) (p : NodeID) (v : Bool) :
    (storeVote votes p v).length = votes.length := by
  simp [storeVote]

/-- After an overwrite, looking up the peer returns the new vote. -/
theorem findVote_storeVote_self (votes : List (NodeID × Bool)) (p : NodeID)
    (v : Bool) (h : p ∈ votes.map Prod.fst) :
    findVote (storeVote votes p v) p = some v := by
  induction votes with
  | nil => simp at h
  | cons pv rest ih =>
    by_cases hh : pv.1 = p
    · simp [storeVote, findVote, hh]
    · simp only [List.map_cons, List.mem_cons] at h
      rcases h with h | h
      · exact absurd h.symm hh
      · simp only [storeVote, List.map_cons, findVote] at *
        rw [if_neg hh]
        simpa [findVote, hh] using ih h

/-- An overwrite for one peer does not change other lookups. -/
theorem findVote_storeVote_other (votes : List (NodeID × Bool)) (p q : NodeID)
    (v : Bool) (h : q ≠ p) :
    findVote (storeVote votes p v) q = findVote votes q := by
  induction votes with
  | nil => rfl
  | cons pv rest ih =>
    simp only [storeVote, List.map_cons]
    by_cases hh : pv.1 = p
    · rw [if_pos hh]
      have hq : ¬pv.1 = q := by rw [hh]; exact fun hq => h hq.symm
      simp only [findVote, if_neg hq]
      exact ih
    · rw [if_neg hh]
      simp only [findVote]
      by_cases hq : pv.1 = q
      · rw [if_pos hq, if_pos hq]
      · rw [if_neg hq, if_neg hq]
        exact ih

/-- Erasing a peer only removes keys. -/
theorem keys_eraseVote_sublist (votes : List (NodeID × Bool)) (p : NodeID) :
    ((eraseVote votes p).map Prod.fst).Sublist (votes.map Prod.fst) := by
  induction votes with
  | nil => simp [eraseVote]
  | cons pv rest ih =>
    by_cases h : pv.1 = p
    · rw [eraseVote, if_pos h, List.map_cons]
      exact List.sublist_cons_self pv.1 (rest.map Prod.fst)
    · rw [eraseVote, if_neg h, List.map_cons, List.map_cons]
      exact ih.cons₂ pv.1

/-- Erasing a present peer shrinks the map by one. -/
theorem length_eraseVote (votes : List (NodeID × Bool)) (p : NodeID)
    (h : p ∈ votes.map Prod.fst) :
    (eraseVote votes p).length + 1 = votes.length := by
  induction votes with
  | nil => simp at h
  | cons pv rest ih =>
    by_cases hh : pv.1 = p
    · simp [eraseVote, hh]
    · simp only [List.map_cons, List.mem_cons] at h
      rcases h with h | h
      · exact absurd h.symm hh
      · have hr := ih h
        rw [eraseVote, if_neg hh]
        simp only [List.length_cons]
        omega

/-- Under unique keys, an erased peer is no longer found. -/
theorem findVote_eraseVote_self (votes : List (NodeID × Bool)) (p : NodeID)
    (hnd : keysNodup votes) : findVote (eraseVote votes p) p = none := by
  induction votes with
  | nil => rfl
  | cons pv rest ih =>
    simp only [keysNodup, List.map_cons, List.nodup_cons] at hnd
    by_cases h : pv.1 = p
    · rw [eraseVote, if_pos h, findVote_eq_none_iff]
      rw [h] at hnd
      exact hnd.1
    · rw [eraseVote, if_neg h, findVote, if_neg h]
      exact ih hnd.2

/-- Erasing one peer does not change other lookups. -/
theorem findVote_eraseVote_other (votes : List (NodeID × Bool)) (p q : NodeID)
    (h : q ≠ p) : findVote (eraseVote votes p) q = findVote votes q := by
  induction votes with
  | nil => rfl
  | cons pv rest ih =>
    by_cases hh : pv.1 = p
    · rw [eraseVote, if_pos hh]
      have hq : ¬pv.1 = q := by rw [hh]; exact fun hq => h hq.symm
      simp only [findVote, if_neg hq]
    · rw [eraseVote, if_neg hh]
      simp only [findVote]
      by_cases hq : pv.1 = q
      · rw [if_pos hq, if_pos hq]
      · rw [if_neg hq, if_neg hq]
        exact ih

/-- Erasing a yes-voting peer removes exactly one yes entry. -/
theorem counts_eraseVote_yes (votes : List (NodeID × Bool)) (p : NodeID)
    (hf : findVote votes p = some true) :
    yesEntries votes = yesEntries (eraseVote votes p) + 1 ∧
    noEntries (eraseVote votes p) = noEntries votes := by
  induction votes with
  | nil => simp [findVote] at hf
  | cons pv rest ih =>
    by_cases h : pv.1 = p
    · rw [findVote, if_pos h, Option.some_inj] at hf
      simp [eraseVote, h, yesEntries, noEntries, List.filter_cons, hf]
    · rw [findVote, if_neg h] at hf
      obtain ⟨ih1, ih2⟩ := ih hf
      cases hv : pv.2 <;>
        simp [eraseVote, h, yesEntries, noEntries, List.filter_cons, hv] at * <;>
        omega

/-- Erasing a no-voting peer removes exactly one no entry. -/
theorem counts_eraseVote_no (votes : List (NodeID × Bool)) (p : NodeID)
    (hf : findVote votes p = some false) :
    noEntries votes = noEntries (eraseVote votes p) + 1 ∧
    yesEntries (eraseVote votes p) = yesEntries votes := by
  induction votes with
  | nil => simp [findVote] at hf
  | cons pv rest ih =>
    by_cases h : pv.1 = p
    · rw [findVote, if_pos h, Option.some_inj] at hf
      simp [eraseVote, h, yesEntries, noEntries, List.filter_cons, hf]
    · rw [findVote, if_neg h] at hf
      obtain ⟨ih1, ih2⟩ := ih hf
      cases hv : pv.2 <;>
        simp [eraseVote, h, yesEntries, noEntries, List.filter_cons, hv] at * <;>
        omega

/-- Unfolding equation for `storeVote` on a cons cell. -/
theorem storeVote_cons (pv : NodeID × Bool) (rest : List (NodeID × Bool))
    (p : NodeID) (v : Bool) :
    storeVote (pv :: rest) p v =
      (if pv.1 = p then (pv.1, v) else pv) :: storeVote rest p v := rfl

/-- Unfolding equation for `setVote` when the peer is absent. -/
theorem setVote_of_none (s : DisputedTxState) (p : NodeID) (v : Bool)
    (h : findVote s.mVotes p = none) :
    setVote s p v =
      if v then
        { s with mVotes := s.mVotes ++ [(p, v)], mYays := s.mYays + 1 }
      else
        { s with mVotes := s.mVotes ++ [(p, v)], mNays := s.mNays + 1 } := by
  unfold setVote
  rw [h]

/-- Unfolding equation for `setVote` when the peer is present. -/
theorem setVote_of_some (s : DisputedTxState) (p : NodeID) (v old : Bool)
    (h : findVote s.mVotes p = some old) :
    setVote s p v =
      if v && !old then
        { s with mVotes := storeVote s.mVotes p true,
                 mNays := s.mNays - 1, mYays := s.mYays + 1 }
      else if !v && old then
        { s with mVotes := storeVote s.mVotes p false,
                 mNays := s.mNays + 1, mYays := s.mYays - 1 }
      else s := by
  unfold setVote
  rw [h]

/-- Unfolding equation for `unVote` when the peer is absent. -/
theorem unVote_of_none (s : DisputedTxState) (p : NodeID)
    (h : findVote s.mVotes p = none) : unVote s p = s := by
  unfold unVote
  rw [h]

/-- Unfolding equation for `unVote` when the peer is present. -/
theorem unVote_of_some (s : DisputedTxState) (p : NodeID) (v : Bool)
    (h : findVote s.mVotes p = some v) :
    unVote s p =
      { s with mVotes := eraseVote s.mVotes p,
               mYays := if v then s.mYays - 1 else s.mYays,
               mNays := if v then s.mNays else s.mNays - 1 } := by
  unfold unVote
  rw [h]

/-- Under unique keys, flipping a stored no vote to yes adds one yes entry
and removes one no entry. -/
theorem counts_storeVote_yes (votes : List (NodeID × Bool)) (p : NodeID)
    (hnd : keysNodup votes) (hf : findVote votes p = some false) :
    yesEntries (storeVote votes p true) = yesEntries votes + 1 ∧
    noEntries votes = noEntries (storeVote votes p true) + 1 := by
  induction votes with
  | nil => simp [findVote] at hf
  | cons pv rest ih =>
    simp only [keysNodup, List.map_cons, List.nodup_cons] at hnd
    by_cases h : pv.1 = p
    · rw [findVote, if_pos h, Option.some_inj] at hf
      have hpm : p ∉ rest.map Prod.fst := by rw [← h]; exact hnd.1
      have hrest : storeVote rest p true = rest :=
        storeVote_of_not_mem rest p true hpm
      rw [storeVote_cons, if_pos h, hrest]
      simp [yesEntries, noEntries, List.filter_cons, hf]
    · rw [findVote, if_neg h] at hf
      obtain ⟨ih1, ih2⟩ := ih hnd.2 hf
      rw [storeVote_cons, if_neg h]
      cases hv : pv.2 <;>
        simp [yesEntries, noEntries, List.filter_cons, hv] at ih1 ih2 ⊢ <;>
        omega

/-- Under unique keys, flipping a stored yes vote to no adds one no entry
and removes one yes entry. -/
theorem counts_storeVote_no (votes : List (NodeID × Bool)) (p : NodeID)
    (hnd : keysNodup votes) (hf : findVote votes p = some true) :
    noEntries (storeVote votes p false) = noEntries votes + 1 ∧
    yesEntries votes = yesEntries (storeVote votes p false) + 1 := by
  induction votes with
  | nil => simp [findVote] at hf
  | cons pv rest ih =>
    simp only [keysNodup, List.map_cons, List.nodup_cons] at hnd
    by_cases h : pv.1 = p
    · rw [findVote, if_pos h, Option.some_inj] at hf
      have hpm : p ∉ rest.map Prod.fst := by rw [← h]; exact hnd.1
      have hrest : storeVote rest p false = rest :=
        storeVote_of_not_mem rest p false hpm
      rw [storeVote_cons, if_pos h, hrest]
      simp [yesEntries, noEntries, List.filter_cons, hf]
    · rw [findVote, if_neg h] at hf
      obtain ⟨ih1, ih2⟩ := ih hnd.2 hf
      rw [storeVote_cons, if_neg h]
      cases hv : pv.2 <;>
        simp [yesEntries, noEntries, List.filter_cons, hv] at ih1 ih2 ⊢ <;>
        omega

/-- The freshly constructed state satisfies the tally invariant. -/
theorem tallyInv_mk (tx : Nat) (ov : Bool) : TallyInv (mkDisputedTx tx ov) := by
  refine ⟨rfl, rfl, ?_⟩
  simp [mkDisputedTx, keysNodup]

/-- `setVote` preserves the tally invariant. -/
theorem tallyInv_setVote (s : DisputedTxState) (p : NodeID) (v : Bool)
    (h : TallyInv s) : TallyInv (setVote s p v) := by
  obtain ⟨hy, hn, hnd⟩ := h
  cases hf : findVote s.mVotes p with
  | none =>
    have hmem : p ∉ s.mVotes.map Prod.fst := (findVote_eq_none_iff _ _).mp hf
    have hkeys : keysNodup (s.mVotes ++ [(p, v)]) := by
      unfold keysNodup
      rw [List.map_append, List.nodup_append]
      refine ⟨hnd, List.nodup_singleton p, ?_⟩
      intro a ha hap
      simp only [List.map_cons, List.map_nil, List.mem_singleton] at hap
      rw [hap] at ha
      exact hmem ha
    rw [setVote_of_none s p v hf]
    cases v with
    | true =>
      rw [if_pos rfl]
      have hye : yesEntries (s.mVotes ++ [(p, true)]) =
          yesEntries s.mVotes + 1 := by simp [yesEntries_append]
      have hne : noEntries (s.mVotes ++ [(p, true)]) =
          noEntries s.mVotes := by simp [noEntries_append]
      refine ⟨?_, ?_, hkeys⟩
      · show s.mYays + 1 = (yesEntries (s.mVotes ++ [(p, true)]) : Int)
        rw [hye]
        push_cast
        omega
      · show s.mNays = (noEntries (s.mVotes ++ [(p, true)]) : Int)
        rw [hne, hn]
    | false =>
      rw [if_neg (by decide : ¬((false : Bool) = true))]
      have hye : yesEntries (s.mVotes ++ [(p, false)]) =
          yesEntries s.mVotes := by simp [yesEntries_append]
      have hne : noEntries (s.mVotes ++ [(p, false)]) =
          noEntries s.mVotes + 1 := by simp [noEntries_append]
      refine ⟨?_, ?_, hkeys⟩
      · show s.mYays = (yesEntries (s.mVotes ++ [(p, false)]) : Int)
        rw [hye, hy]
      · show s.mNays + 1 = (noEntries (s.mVotes ++ [(p, false)]) : Int)
        rw [hne]
        push_cast
        omega
  | some oldVote =>
    rw [setVote_of_some s p v oldVote hf]
    have hkeys : ∀ w : Bool, keysNodup (storeVote s.mVotes p w) := by
      intro w
      unfold keysNodup
      rw [keys_storeVote]
      exact hnd
    cases v with
    | true =>
      cases oldVote with
      | true =>
        rw [if_neg (by decide : ¬((true && !true) = true)),
          if_neg (by decide : ¬((!true && true) = true))]
        exact ⟨hy, hn, hnd⟩
      | false =>
        rw [if_pos (by decide : (true && !false) = true)]
        obtain ⟨c1, c2⟩ := counts_storeVote_yes s.mVotes p hnd hf
        refine ⟨?_, ?_, hkeys true⟩
        · show s.mYays + 1 = (yesEntries (storeVote s.mVotes p true) : Int)
          rw [c1]
          push_cast
          omega
        · show s.mNays - 1 = (noEntries (storeVote s.mVotes p true) : Int)
          omega
    | false =>
      cases oldVote with
      | false =>
        rw [if_neg (by decide : ¬((false && !false) = true)),
          if_neg (by decide : ¬((!false && false) = true))]
        exact ⟨hy, hn, hnd⟩
      | true =>
        rw [if_neg (by decide : ¬((false && !true) = true)),
          if_pos (by decide : (!false && true) = true)]
        obtain ⟨c1, c2⟩ := counts_storeVote_no s.mVotes p hnd hf
        refine ⟨?_, ?_, hkeys false⟩
        · show s.mYays - 1 = (yesEntries (storeVote s.mVotes p false) : Int)
          omega
        · show s.mNays + 1 = (noEntries (storeVote s.mVotes p false) : Int)
          rw [c1]
          push_cast
          omega

/-- `unVote` preserves the tally invariant. -/
theorem tallyInv_unVote (s : DisputedTxState) (p : NodeID)
    (h : TallyInv s) : TallyInv (unVote s p) := by
  obtain ⟨hy, hn, hnd⟩ := h
  cases hf : findVote s.mVotes p with
  | none =>
    rw [unVote_of_none s p hf]
    exact ⟨hy, hn, hnd⟩
  | some v =>
    rw [unVote_of_some s p v hf]
    have hkeys : keysNodup (eraseVote s.mVotes p) :=
      (keys_eraseVote_sublist s.mVotes p).nodup hnd
    cases v with
    | true =>
      obtain ⟨c1, c2⟩ := counts_eraseVote_yes s.mVotes p hf
      refine ⟨?_, ?_, hkeys⟩
      · show (if (true : Bool) then s.mYays - 1 else s.mYays) =
          (yesEntries (eraseVote s.mVotes p) : Int)
        rw [if_pos rfl]
        omega
      · show (if (true : Bool) then s.mNays else s.mNays - 1) =
          (noEntries (eraseVote s.mVotes p) : Int)
        rw [if_pos rfl]
        omega
    | false =>
      obtain ⟨c1, c2⟩ := counts_eraseVote_no s.mVotes p hf
      refine ⟨?_, ?_, hkeys⟩
      · show (if (false : Bool) then s.mYays - 1 else s.mYays) =
          (yesEntries (eraseVote s.mVotes p) : Int)
        rw [if_neg (by decide : ¬((false : Bool) = true))]
        omega
      · show (if (false : Bool) then s.mNays else s.mNays - 1) =
          (noEntries (eraseVote s.mVotes p) : Int)
        rw [if_neg (by decide : ¬((false : Bool) = true))]
        omega

/-- Any sequence of tally mutations preserves the tally invariant. -/
theorem tallyInv_applyOps (ops : List VoteOp) (s : DisputedTxState)
    (h : TallyInv s) : TallyInv (applyOps s ops) := by
  induction ops generalizing s with
  | nil => exact h
  | cons op rest ih =>
    cases op with
    | register p v => exact ih (setVote s p v) (tallyInv_setVote s p v h)
    | remove p => exact ih (unVote s p) (tallyInv_unVote s p h)

/-- A found peer's key is in the map. -/
theorem mem_keys_of_findVote (votes : List (NodeID × Bool)) (p : NodeID)
    (w : Bool) (h : findVote votes p = some w) : p ∈ votes.map Prod.fst := by
  by_contra hc
  rw [← findVote_eq_none_iff] at hc
  rw [h] at hc
  exact Option.noConfusion hc

/-- Inserting an absent peer at the back makes it found with its vote. -/
theorem findVote_append_self (votes : List (NodeID × Bool)) (p : NodeID)
    (v : Bool) (h : findVote votes p = none) :
    findVote (votes ++ [(p, v)]) p = some v := by
  induction votes with
  | nil => simp [findVote]
  | cons pv rest ih =>
    rw [findVote] at h
    rw [List.cons_append, findVote]
    by_cases hh : pv.1 = p
    · rw [if_pos hh] at h
      exact Option.noConfusion h
    · rw [if_neg hh] at h
      rw [if_neg hh]
      exact ih h

/-- Inserting one peer at the back does not change other lookups. -/
theorem findVote_append_other (votes : List (NodeID × Bool)) (p q : NodeID)
    (v : Bool) (h : q ≠ p) :
    findVote (votes ++ [(p, v)]) q = findVote votes q := by
  induction votes with
  | nil =>
    simp only [List.nil_append, findVote]
    rw [if_neg (show ¬(p = q) from fun hh => h hh.symm)]
  | cons pv rest ih =>
    rw [List.cons_append, findVote, findVote]
    by_cases hq : pv.1 = q
    · rw [if_pos hq, if_pos hq]
    · rw [if_neg hq, if_neg hq]
      exact ih

/-- Once past the early-exit guard, `updateVote` reports a change exactly
when the computed position differs, and applies it. -/
theorem updateVote_unfold_off (cfg : AvalancheConfig) (s : DisputedTxState)
    (percentTime : Int) (proposing : Bool)
    (h1 : ¬(s.mOurVote = true ∧ s.mNays = 0))
    (h2 : ¬(s.mOurVote = false ∧ s.mYays = 0)) :
    updateVote cfg s percentTime proposing =
      ((votePosition cfg s percentTime proposing != s.mOurVote),
        { s with mOurVote := votePosition cfg s percentTime proposing }) := by
  unfold updateVote
  rw [if_neg h1, if_neg h2]
  by_cases hnp : votePosition cfg s percentTime proposing = s.mOurVote
  · rw [if_pos hnp, hnp, bne_self_eq_false]
  · rw [if_neg hnp, bne_iff_ne.mpr hnp]

/-- The unguarded computation reports a change exactly when the computed
position differs, and applies it. -/
theorem updateVoteNoGuard_unfold (cfg : AvalancheConfig) (s : DisputedTxState)
    (percentTime : Int) (proposing : Bool) :
    updateVoteNoGuard cfg s percentTime proposing =
      ((votePosition cfg s percentTime proposing != s.mOurVote),
        { s with mOurVote := votePosition cfg s percentTime proposing }) := by
  unfold updateVoteNoGuard
  by_cases hnp : votePosition cfg s percentTime proposing = s.mOurVote
  · rw [if_pos hnp, hnp, bne_self_eq_false]
  · rw [if_neg hnp, bne_iff_ne.mpr hnp]

/-- In the proposing case, the computed position is the support weight
compared against the threshold the schedule selects for the elapsed time. -/
theorem votePosition_proposing (cfg : AvalancheConfig) (s : DisputedTxState)
    (percentTime : Int) :
    votePosition cfg s percentTime true =
      decide (Int.tdiv (s.mYays * 100 + (if s.mOurVote then 100 else 0))
          (s.mNays + s.mYays + 1) > selectThreshold cfg percentTime) := by
  unfold votePosition selectThreshold
  rw [if_pos rfl]
  split_ifs <;> rfl

/-- In the non-proposing case, the computed position is the strict majority
of peer votes. -/
theorem votePosition_notProposing (cfg : AvalancheConfig) (s : DisputedTxState)
    (percentTime : Int) :
    votePosition cfg s percentTime false = decide (s.mYays > s.mNays) := by
  unfold votePosition
  rw [if_neg (by decide : ¬((false : Bool) = true))]

/-- C4: whenever our position is yes and there are no no-votes, or our
position is no and there are no yes-votes, `updateVote` returns false and
leaves the state unchanged, for every elapsed time and proposing flag. -/
theorem updateVote_earlyExit (cfg : AvalancheConfig) (s : DisputedTxState)
    (percentTime : Int) (proposing : Bool) :
    (s.mOurVote = true ∧ s.mNays = 0 →
      updateVote cfg s percentTime proposing = (false, s)) ∧
    (s.mOurVote = false ∧ s.mYays = 0 →
      updateVote cfg s percentTime proposing = (false, s)) := by
  constructor
  · intro h
    unfold updateVote
    rw [if_pos h]
  · intro h
    unfold updateVote
    by_cases h1 : s.mOurVote = true ∧ s.mNays = 0
    · rw [if_pos h1]
    · rw [if_neg h1, if_pos h]

/-- Witness for the early-exit theorem at a concrete state. -/
theorem updateVote_earlyExit_witness :
    (exYes.mOurVote = true ∧ exYes.mNays = 0) ∧
    updateVote scenarioConfig exYes 30 true = (false, exYes) :=
  ⟨by decide, (updateVote_earlyExit scenarioConfig exYes 30 true).1 (by decide)⟩

/-- C9: `updateVote` changes no component of the state other than
`mOurVote`, and returns true exactly when `mOurVote` changed. -/
theorem updateVote_frame (cfg : AvalancheConfig) (s : DisputedTxState)
    (percentTime : Int) (proposing : Bool) :
    (updateVote cfg s percentTime proposing).2.mTransactionID =
        s.mTransactionID ∧
    (updateVote cfg s percentTime proposing).2.transaction = s.transaction ∧
    (updateVote cfg s percentTime proposing).2.mYays = s.mYays ∧
    (updateVote cfg s percentTime proposing).2.mNays = s.mNays ∧
    (updateVote cfg s percentTime proposing).2.mVotes = s.mVotes ∧
    ((updateVote cfg s percentTime proposing).1 = true ↔
      (updateVote cfg s percentTime proposing).2.mOurVote ≠ s.mOurVote) := by
  unfold updateVote
  split_ifs with h1 h2 h3
  · simp
  · simp
  · simp [h3]
  · simp [h3]

/-- C2: starting from a freshly constructed dispute, any sequence of
register/remove operations keeps `yesCount + noCount` equal to the map
size, both counters non-negative, and keys unique. -/
theorem voteTally_invariant (tx : Nat) (ov : Bool) (ops : List VoteOp) :
    (applyOps (mkDisputedTx tx ov) ops).mYays +
        (applyOps (mkDisputedTx tx ov) ops).mNays =
      ((applyOps (mkDisputedTx tx ov) ops).mVotes.length : Int) ∧
    0 ≤ (applyOps (mkDisputedTx tx ov) ops).mYays ∧
    0 ≤ (applyOps (mkDisputedTx tx ov) ops).mNays ∧
    keysNodup (applyOps (mkDisputedTx tx ov) ops).mVotes := by
  obtain ⟨hy, hn, hnd⟩ :=
    tallyInv_applyOps ops (mkDisputedTx tx ov) (tallyInv_mk tx ov)
  have hlen :=
    yesEntries_add_noEntries (applyOps (mkDisputedTx tx ov) ops).mVotes
  refine ⟨?_, ?_, ?_, hnd⟩ <;> omega

/-- C6: with the four percentages ordered non-decreasingly, the threshold
the schedule selects is non-decreasing in the elapsed time. -/
theorem selectThreshold_monotone (cfg : AvalancheConfig) (t1 t2 : Int)
    (hp1 : cfg.initConsensusPct ≤ cfg.midConsensusPct)
    (hp2 : cfg.midConsensusPct ≤ cfg.lateConsensusPct)
    (hp3 : cfg.lateConsensusPct ≤ cfg.stuckConsensusPct)
    (ht : t1 ≤ t2) :
    selectThreshold cfg t1 ≤ selectThreshold cfg t2 := by
  unfold selectThreshold
  split_ifs <;> omega

/-- Witness for threshold monotonicity at the scenario configuration. -/
theorem selectThreshold_monotone_witness :
    scenarioConfig.initConsensusPct ≤ scenarioConfig.midConsensusPct ∧
    (30 : Int) ≤ 100 ∧
    selectThreshold scenarioConfig 30 ≤ selectThreshold scenarioConfig 100 :=
  ⟨by decide, by decide,
    selectThreshold_monotone scenarioConfig 30 100 (by decide) (by decide)
      (by decide) (by decide)⟩

/-- C1: past the guard, proposing `updateVote` computes the weight by exact
truncating division, compares it strictly against the threshold selected by
strict less-than time brackets, and flips to the computed position; in
Scenario A the weight is 60, the threshold 50, and the position flips to
yes. -/
theorem updateVote_proposing (cfg : AvalancheConfig) (s : DisputedTxState)
    (percentTime : Int)
    (h1 : ¬(s.mOurVote = true ∧ s.mNays = 0))
    (h2 : ¬(s.mOurVote = false ∧ s.mYays = 0)) :
    updateVote cfg s percentTime true =
      ((decide (Int.tdiv (s.mYays * 100 + (if s.mOurVote then 100 else 0))
            (s.mNays + s.mYays + 1) > selectThreshold cfg percentTime)
          != s.mOurVote),
        { s with mOurVote :=
            decide (Int.tdiv (s.mYays * 100 + (if s.mOurVote then 100 else 0))
              (s.mNays + s.mYays + 1) > selectThreshold cfg percentTime) }) ∧
    updateVote scenarioConfig scenarioA 30 true =
      (true, { scenarioA with mOurVote := true }) ∧
    Int.tdiv (scenarioA.mYays * 100 + 0)
        (scenarioA.mNays + scenarioA.mYays + 1) = 60 ∧
    selectThreshold scenarioConfig 30 = 50 := by
  refine ⟨?_, by decide, by decide, by decide⟩
  rw [updateVote_unfold_off cfg s percentTime true h1 h2,
    votePosition_proposing]

/-- Witness for the proposing formula at Scenario A. -/
theorem updateVote_proposing_witness :
    ¬(scenarioA.mOurVote = true ∧ scenarioA.mNays = 0) ∧
    ¬(scenarioA.mOurVote = false ∧ scenarioA.mYays = 0) ∧
    updateVote scenarioConfig scenarioA 30 true =
      ((decide (Int.tdiv (scenarioA.mYays * 100 + (if scenarioA.mOurVote then 100 else 0)) (scenarioA.mNays + scenarioA.mYays + 1) > selectThreshold scenarioConfig 30) != scenarioA.mOurVote),
        { scenarioA with mOurVote := decide (Int.tdiv (scenarioA.mYays * 100 + (if scenarioA.mOurVote then 100 else 0)) (scenarioA.mNays + scenarioA.mYays + 1) > selectThreshold scenarioConfig 30) }) :=
  ⟨by decide, by decide,
    (updateVote_proposing scenarioConfig scenarioA 30 (by decide)
      (by decide)).1⟩

/-- C5: when not proposing, a reported change means the new position is
the strict majority `yesCount > noCount` and disagreed with the old one;
on a tie a changed position is always no; Scenario C flips yes to no. -/
theorem updateVote_notProposing (cfg : AvalancheConfig) (s : DisputedTxState)
    (percentTime : Int) :
    ((updateVote cfg s percentTime false).1 = true →
      (updateVote cfg s percentTime false).2.mOurVote =
        decide (s.mYays > s.mNays) ∧
      s.mOurVote ≠ decide (s.mYays > s.mNays)) ∧
    (s.mYays = s.mNays → (updateVote cfg s percentTime false).1 = true →
      (updateVote cfg s percentTime false).2.mOurVote = false) ∧
    updateVote scenarioConfig scenarioC 30 false =
      (true, { scenarioC with mOurVote := false }) := by
  have main : (updateVote cfg s percentTime false).1 = true →
      (updateVote cfg s percentTime false).2.mOurVote =
        decide (s.mYays > s.mNays) ∧
      s.mOurVote ≠ decide (s.mYays > s.mNays) := by
    intro hch
    by_cases g1 : s.mOurVote = true ∧ s.mNays = 0
    · unfold updateVote at hch
      rw [if_pos g1] at hch
      simp at hch
    · by_cases g2 : s.mOurVote = false ∧ s.mYays = 0
      · unfold updateVote at hch
        rw [if_neg g1, if_pos g2] at hch
        simp at hch
      · rw [updateVote_unfold_off cfg s percentTime false g1 g2,
          votePosition_notProposing] at hch ⊢
        have hb : (decide (s.mYays > s.mNays) != s.mOurVote) = true := hch
        refine ⟨rfl, fun he => (bne_iff_ne.mp hb) he.symm⟩
  refine ⟨main, ?_, by decide⟩
  intro heq hch
  rw [(main hch).1, heq]
  simp

/-- Witness for the non-proposing majority rule at Scenario C. -/
theorem updateVote_notProposing_witness :
    (updateVote scenarioConfig scenarioC 30 false).1 = true ∧
    ((updateVote scenarioConfig scenarioC 30 false).2.mOurVote =
        decide (scenarioC.mYays > scenarioC.mNays) ∧
      scenarioC.mOurVote ≠ decide (scenarioC.mYays > scenarioC.mNays)) :=
  ⟨by decide,
    (updateVote_notProposing scenarioConfig scenarioC 30).1 (by decide)⟩

/-- C3 counterexample: at the freshly constructed state with a yes local
position (so the guard fires on an empty tally), the guarded `updateVote`
keeps the position in the non-proposing case, while the unguarded
weight/majority computation would flip it to no. -/
theorem updateVote_guard_counterexample :
    (mkDisputedTx 7 true).mOurVote = true ∧ (mkDisputedTx 7 true).mNays = 0 ∧
    updateVote scenarioConfig (mkDisputedTx 7 true) 30 false =
      (false, mkDisputedTx 7 true) ∧
    updateVoteNoGuard scenarioConfig (mkDisputedTx 7 true) 30 false =
      (true, { mkDisputedTx 7 true with mOurVote := false }) :=
  ⟨rfl, rfl, by decide, by decide⟩

/-- C3 (amended): when the early-exit guard fires, the guarded call agrees
with the full unguarded computation — provided the counts are non-negative,
the configured percentages lie in `[0, 100)`, and we are not in the one
divergent corner (not proposing, a yes position, and an empty tally). -/
theorem updateVote_guard_equiv (cfg : AvalancheConfig) (s : DisputedTxState)
    (percentTime : Int) (proposing : Bool)
    (hguard : (s.mOurVote = true ∧ s.mNays = 0) ∨
      (s.mOurVote = false ∧ s.mYays = 0))
    (hy : 0 ≤ s.mYays) (hn : 0 ≤ s.mNays)
    (hpct : (0 ≤ cfg.initConsensusPct ∧ cfg.initConsensusPct < 100) ∧
      (0 ≤ cfg.midConsensusPct ∧ cfg.midConsensusPct < 100) ∧
      (0 ≤ cfg.lateConsensusPct ∧ cfg.lateConsensusPct < 100) ∧
      (0 ≤ cfg.stuckConsensusPct ∧ cfg.stuckConsensusPct < 100))
    (hnontriv : proposing = true ∨ s.mOurVote = false ∨ 0 < s.mYays) :
    updateVote cfg s percentTime proposing =
      updateVoteNoGuard cfg s percentTime proposing ∧
    updateVoteNoGuard cfg s percentTime proposing = (false, s) := by
  obtain ⟨⟨hi1, hi2⟩, ⟨hm1, hm2⟩, ⟨hl1, hl2⟩, hs1, hs2⟩ := hpct
  have hvp : votePosition cfg s percentTime proposing = s.mOurVote := by
    rcases hguard with ⟨hov, h0⟩ | ⟨hov, h0⟩
    · cases proposing with
      | true =>
        rw [votePosition_proposing]
        have hw : Int.tdiv (s.mYays * 100 + (if s.mOurVote then 100 else 0))
            (s.mNays + s.mYays + 1) = 100 := by
          rw [hov, h0, if_pos rfl]
          have e1 : s.mYays * 100 + 100 = 100 * (s.mYays + 1) := by ring
          have e2 : (0 : Int) + s.mYays + 1 = s.mYays + 1 := by ring
          rw [e1, e2, Int.mul_tdiv_cancel 100 (by omega : s.mYays + 1 ≠ 0)]
        rw [hw, hov, decide_eq_true_eq]
        unfold selectThreshold
        split_ifs <;> omega
      | false =>
        rw [votePosition_notProposing, hov, h0, decide_eq_true_eq]
        rcases hnontriv with hp | hv | hy2
        · exact absurd hp (by decide)
        · rw [hov] at hv
          exact absurd hv (by decide)
        · exact hy2
    · cases proposing with
      | true =>
        rw [votePosition_proposing]
        have hw : Int.tdiv (s.mYays * 100 + (if s.mOurVote then 100 else 0))
            (s.mNays + s.mYays + 1) = 0 := by
          rw [hov, h0, if_neg (by decide : ¬((false : Bool) = true))]
          norm_num [Int.zero_tdiv]
        rw [hw, hov, decide_eq_false_iff_not]
        unfold selectThreshold
        split_ifs <;> omega
      | false =>
        rw [votePosition_notProposing, hov, h0, decide_eq_false_iff_not]
        omega
  have h2 : updateVoteNoGuard cfg s percentTime proposing = (false, s) := by
    unfold updateVoteNoGuard
    rw [if_pos hvp]
  have h1 : updateVote cfg s percentTime proposing = (false, s) := by
    unfold updateVote
    rcases hguard with hg | hg
    · rw [if_pos hg]
    · by_cases hA : s.mOurVote = true ∧ s.mNays = 0
      · rw [if_pos hA]
      · rw [if_neg hA, if_pos hg]
  exact ⟨h1.trans h2.symm, h2⟩

/-- Witness for the amended guard equivalence at a concrete state with a
yes position, two yes votes and no no votes. -/
theorem updateVote_guard_equiv_witness :
    ((exYes.mOurVote = true ∧ exYes.mNays = 0) ∨
      (exYes.mOurVote = false ∧ exYes.mYays = 0)) ∧
    updateVote scenarioConfig exYes 30 false =
      updateVoteNoGuard scenarioConfig exYes 30 false ∧
    updateVoteNoGuard scenarioConfig exYes 30 false = (false, exYes) :=
  ⟨by decide,
    updateVote_guard_equiv scenarioConfig exYes 30 false (by decide)
      (by decide) (by decide) (by decide) (by decide)⟩

/-- C7: `setVote` inserts a new peer and bumps the matching counter; a
repeated identical vote is a no-op; a flip rewrites the stored vote, moves
one counter up and the other down, and keeps the map size and total. -/
theorem setVote_cases (s : DisputedTxState) (p : NodeID) (v : Bool) :
    (findVote s.mVotes p = none →
      findVote (setVote s p v).mVotes p = some v ∧
      (∀ q, q ≠ p → findVote (setVote s p v).mVotes q = findVote s.mVotes q) ∧
      (setVote s p v).mVotes.length = s.mVotes.length + 1 ∧
      (setVote s p v).mYays = s.mYays + (if v then 1 else 0) ∧
      (setVote s p v).mNays = s.mNays + (if v then 0 else 1)) ∧
    (findVote s.mVotes p = some v → setVote s p v = s) ∧
    (findVote s.mVotes p = some (!v) →
      findVote (setVote s p v).mVotes p = some v ∧
      (∀ q, q ≠ p → findVote (setVote s p v).mVotes q = findVote s.mVotes q) ∧
      (setVote s p v).mVotes.length = s.mVotes.length ∧
      (setVote s p v).mYays = s.mYays + (if v then 1 else -1) ∧
      (setVote s p v).mNays = s.mNays + (if v then -1 else 1) ∧
      (setVote s p v).mYays + (setVote s p v).mNays = s.mYays + s.mNays) := by
  refine ⟨?_, ?_, ?_⟩
  · intro hf
    rw [setVote_of_none s p v hf]
    cases v with
    | true =>
      rw [if_pos rfl]
      refine ⟨?_, ?_, ?_, ?_, ?_⟩
      · exact findVote_append_self s.mVotes p true hf
      · intro q hq
        exact findVote_append_other s.mVotes p q true hq
      · simp
      · simp
      · simp
    | false =>
      rw [if_neg (by decide : ¬((false : Bool) = true))]
      refine ⟨?_, ?_, ?_, ?_, ?_⟩
      · exact findVote_append_self s.mVotes p false hf
      · intro q hq
        exact findVote_append_other s.mVotes p q false hq
      · simp
      · simp
      · simp
  · intro hf
    rw [setVote_of_some s p v v hf]
    cases v <;> simp
  · intro hf
    have hmem : p ∈ s.mVotes.map Prod.fst :=
      mem_keys_of_findVote s.mVotes p (!v) hf
    rw [setVote_of_some s p v (!v) hf]
    cases v with
    | true =>
      rw [if_pos (by decide : (true && !(!true)) = true)]
      refine ⟨?_, ?_, ?_, ?_, ?_, ?_⟩
      · exact findVote_storeVote_self s.mVotes p true hmem
      · intro q hq
        exact findVote_storeVote_other s.mVotes p q true hq
      · exact length_storeVote s.mVotes p true
      · simp
      · show s.mNays - 1 = s.mNays + (if (true : Bool) then -1 else 1)
        rw [if_pos rfl]
        omega
      · show s.mYays + 1 + (s.mNays - 1) = s.mYays + s.mNays
        omega
    | false =>
      rw [if_neg (by decide : ¬((false && !(!false)) = true)),
        if_pos (by decide : (!false && !false) = true)]
      refine ⟨?_, ?_, ?_, ?_, ?_, ?_⟩
      · exact findVote_storeVote_self s.mVotes p false hmem
      · intro q hq
        exact findVote_storeVote_other s.mVotes p q false hq
      · exact length_storeVote s.mVotes p false
      · show s.mYays - 1 = s.mYays + (if (false : Bool) then 1 else -1)
        rw [if_neg (by decide : ¬((false : Bool) = true))]
        omega
      · simp
      · show s.mYays - 1 + (s.mNays + 1) = s.mYays + s.mNays
        omega

/-- Witness for the `setVote` case analysis: inserting a fresh no vote and
flipping an existing yes vote, at a concrete state. -/
theorem setVote_cases_witness :
    (findVote exYes.mVotes "q1" = none ∧
      (setVote exYes "q1" false).mNays =
        exYes.mNays + (if false then 0 else 1)) ∧
    (findVote exYes.mVotes "p1" = some (!false) ∧
      (setVote exYes "p1" false).mYays =
        exYes.mYays + (if false then 1 else -1)) :=
  ⟨⟨by decide, (((setVote_cases exYes "q1" false).1 (by decide)).2.2.2.2)⟩,
    ⟨by decide, ((((setVote_cases exYes "p1" false).2.2 (by decide)).2.2.2.1))⟩⟩

/-- C8: `unVote` on a present peer removes exactly that entry and
decrements the matching counter, touching nothing else; on an absent peer
it is a no-op and raises no error. -/
theorem unVote_cases (s : DisputedTxState) (p : NodeID)
    (hnd : keysNodup s.mVotes) :
    (∀ v, findVote s.mVotes p = some v →
      findVote (unVote s p).mVotes p = none ∧
      (∀ q, q ≠ p → findVote (unVote s p).mVotes q = findVote s.mVotes q) ∧
      (unVote s p).mVotes.length + 1 = s.mVotes.length ∧
      (unVote s p).mYays = s.mYays - (if v then 1 else 0) ∧
      (unVote s p).mNays = s.mNays - (if v then 0 else 1) ∧
      (unVote s p).mOurVote = s.mOurVote ∧
      (unVote s p).mTransactionID = s.mTransactionID ∧
      (unVote s p).transaction = s.transaction) ∧
    (findVote s.mVotes p = none → unVote s p = s) := by
  constructor
  · intro v hf
    rw [unVote_of_some s p v hf]
    refine ⟨?_, ?_, ?_, ?_, ?_, rfl, rfl, rfl⟩
    · exact findVote_eraseVote_self s.mVotes p hnd
    · intro q hq
      exact findVote_eraseVote_other s.mVotes p q hq
    · exact length_eraseVote s.mVotes p (mem_keys_of_findVote s.mVotes p v hf)
    · cases v <;> simp
    · cases v <;> simp
  · exact unVote_of_none s p

/-- Witness for the `unVote` case analysis: removing a present yes voter
at a concrete state. -/
theorem unVote_cases_witness :
    keysNodup exYes.mVotes ∧ findVote exYes.mVotes "p1" = some true ∧
    (unVote exYes "p1").mVotes.length + 1 = exYes.mVotes.length :=
  ⟨by decide, by decide,
    ((unVote_cases exYes "p1" (by decide)).1 true (by decide)).2.2.1⟩

/-- C10: the snapshot reports the two counters and our vote, carries the
votes mapping exactly when the tally is non-empty, and then has one entry
per peer, keyed by the peer's string form, holding that peer's vote. -/
theorem getJson_spec (s : DisputedTxState) (hnd : keysNodup s.mVotes) :
    (getJson s).yays = s.mYays ∧
    (getJson s).nays = s.mNays ∧
    (getJson s).our_vote = s.mOurVote ∧
    ((getJson s).votes = none ↔ s.mVotes = []) ∧
    (∀ l, (getJson s).votes = some l →
      l.length = s.mVotes.length ∧
      (l.map Prod.fst).Nodup ∧
      (∀ p v, findVote s.mVotes p = some v → findVote l p = some v)) := by
  have hmap : s.mVotes.map (fun pv => (pv.1, pv.2)) = s.mVotes := by
    simp
  refine ⟨rfl, rfl, rfl, ?_, ?_⟩
  · unfold getJson
    by_cases he : s.mVotes.isEmpty = true
    · rw [if_pos he]
      simp only [List.isEmpty_iff] at he
      simp [he]
    · rw [if_neg he]
      simp only [List.isEmpty_iff] at he
      simp [he]
  · intro l hl
    unfold getJson at hl
    by_cases he : s.mVotes.isEmpty = true
    · rw [if_pos he] at hl
      exact Option.noConfusion hl
    · rw [if_neg he, Option.some_inj, hmap] at hl
      rw [← hl]
      exact ⟨rfl, hnd, fun p v h => h⟩

/-- Witness for the snapshot contract at a concrete non-empty state. -/
theorem getJson_spec_witness :
    keysNodup exYes.mVotes ∧
    ((getJson exYes).votes = none ↔ exYes.mVotes = []) :=
  ⟨by decide, (getJson_spec exYes (by decide)).2.2.2.1⟩
